import Mathlib

/-!
Verification of the aicommit diff-chunking and message-generation pipeline.

The TypeScript source (src/services/aiService.ts and friends) is shallowly
embedded here.  JavaScript strings are modelled as `List Char`; the
JavaScript string primitives used by the source (`split`, `replace` with a
string pattern, `includes`, `trim`, and the few regexes of
`enforceCommitType`) are modelled as structurally recursive Lean functions
so that every definition is executable and kernel-reducible.
-/

namespace AICommit

/-- Characters of a JavaScript string. -/
abbrev Chars := List Char

/-! ### Constants (src/config/constants.ts) -/

/-- Maximum characters for the diff (`MAX_DIFF_LENGTH = 15000`). -/
def MAX_DIFF_LENGTH : Nat := 15000

/-- Threshold for chunked processing (`CHUNK_THRESHOLD = 50000`). -/
def CHUNK_THRESHOLD : Nat := 50000

/-- 60 seconds cooldown for free accounts (`FREE_ACCOUNT_COOLDOWN = 60000`). -/
def FREE_ACCOUNT_COOLDOWN : Int := 60000

/-! ### JavaScript string primitives -/

/-- `String.prototype.split` with a non-empty string separator: leftmost,
non-overlapping occurrences, scanning left to right.  `fuel` bounds the
recursion; `fuel ≥ l.length + 1` is always sufficient for a non-empty
separator. -/
def splitGo (sep : Chars) : Nat → Chars → List Chars
  | 0, l => [l]
  | fuel + 1, l =>
    if sep.isPrefixOf l then [] :: splitGo sep fuel (l.drop sep.length)
    else
      match l with
      | [] => [[]]
      | c :: cs =>
        match splitGo sep fuel cs with
        | [] => [[c]]
        | p :: ps => (c :: p) :: ps

/-- `s.split(sep)` for JavaScript strings. -/
def jsSplitList (sep l : Chars) : List Chars :=
  if sep = [] then [l] else splitGo sep (l.length + 1) l

/-- The per-file delimiter `'diff --git'`. -/
def sepDiffGit : Chars := "diff --git".data

/-- The file sections of a diff, as computed by `splitDiffIntoChunks`
(aiService.ts line 191): `diff.split('diff --git').filter(Boolean)`, with
the consumed delimiter re-prepended to each section (line 196). -/
def sectionsOf (d : Chars) : List Chars :=
  ((jsSplitList sepDiffGit d).filter (fun s => s ≠ [])).map (fun s => sepDiffGit ++ s)

/-- String-level view of `sectionsOf`. -/
def fileSections (diff : String) : List String :=
  (sectionsOf diff.data).map String.mk

/-- One iteration of the greedy packing loop of `splitDiffIntoChunks`
(aiService.ts lines 195–206).  State: emitted chunks and the current chunk. -/
def chunkStep (acc : List Chars × Chars) (fullSection : Chars) : List Chars × Chars :=
  let chunks := acc.1
  let currentChunk := acc.2
  if MAX_DIFF_LENGTH < currentChunk.length + fullSection.length then
    (chunks ++ (if currentChunk = [] then [] else [currentChunk]), fullSection)
  else
    (chunks, currentChunk ++ (if currentChunk = [] then [] else ['\n']) ++ fullSection)

/-- `splitDiffIntoChunks` (aiService.ts lines 190–213), at the `List Char`
level: fold the greedy packing step over the file sections and flush the
final non-empty chunk. -/
def chunksOf (d : Chars) : List Chars :=
  let r := (sectionsOf d).foldl chunkStep ([], [])
  r.1 ++ (if r.2 = [] then [] else [r.2])

/-- `splitDiffIntoChunks` on strings. -/
def splitDiffIntoChunks (diff : String) : List String :=
  (chunksOf diff.data).map String.mk

/-- Newline-joining of a group of sections: how the packing loop serializes
the sections it accumulates into one chunk. -/
def joinSecs : List Chars → Chars
  | [] => []
  | [s] => s
  | s :: rest => s ++ '\n' :: joinSecs rest

/-- The packing loop of `splitDiffIntoChunks`, tracked at the level of
groups of whole sections instead of serialized chunks. -/
def groupStep (acc : List (List Chars) × List Chars) (sec : Chars) :
    List (List Chars) × List Chars :=
  let gs := acc.1
  let cur := acc.2
  if MAX_DIFF_LENGTH < (joinSecs cur).length + sec.length then
    (gs ++ (if cur = [] then [] else [cur]), [sec])
  else
    (gs, cur ++ [sec])

/-- The groups of file sections underlying the chunks of `splitDiffIntoChunks`. -/
def chunkGroups (d : Chars) : List (List Chars) :=
  let r := (sectionsOf d).foldl groupStep ([], [])
  r.1 ++ (if r.2 = [] then [] else [r.2])

/-- String-level view of `chunkGroups`. -/
def chunkGroupsS (diff : String) : List (List String) :=
  (chunkGroups diff.data).map (fun g => g.map String.mk)

/-- String-level view of `joinSecs`. -/
def joinSectionsS (g : List String) : String :=
  String.mk (joinSecs (g.map String.data))

/-! ### Basic facts about the embedding primitives -/

@[simp] lemma data_mk (l : Chars) : (String.mk l).data = l := rfl

@[simp] lemma length_mk (l : Chars) : (String.mk l).length = l.length := rfl

lemma joinSecs_append_single (cur : List Chars) (s : Chars) :
    joinSecs (cur ++ [s]) = joinSecs cur ++ (if cur = [] then [] else ['\n']) ++ s := by
  induction cur with
  | nil => simp [joinSecs]
  | cons a t ih =>
    cases t with
    | nil => simp [joinSecs]
    | cons b t2 =>
      simp only [List.cons_append, List.append_eq, joinSecs] at ih ⊢
      rw [ih]
      simp [List.append_assoc]

lemma joinSecs_ne_nil (cur : List Chars) (h : ∀ s ∈ cur, s ≠ []) (hc : cur ≠ []) :
    joinSecs cur ≠ [] := by
  match cur with
  | [] => exact absurd rfl hc
  | [a] => exact h a (List.mem_singleton.mpr rfl)
  | a :: b :: t =>
    simp only [joinSecs, ne_eq, List.append_eq_nil]
    intro ⟨_, hcons⟩
    exact List.cons_ne_nil _ _ hcons

lemma sectionsOf_ne_nil (d : Chars) : ∀ s ∈ sectionsOf d, s ≠ [] := by
  intro s hs
  simp only [sectionsOf, List.mem_map] at hs
  obtain ⟨t, _, rfl⟩ := hs
  simp only [ne_eq, List.append_eq_nil, not_and]
  intro hsep
  exact absurd hsep (by decide)

/-! ### The packing fold agrees with its group-level description (C1) -/

lemma chunkFold_eq_groupFold (ss : List Chars) :
    ∀ (gs : List (List Chars)) (cur : List Chars),
      (∀ s ∈ ss, s ≠ []) →
      (cur ≠ [] → joinSecs cur ≠ []) →
      ss.foldl chunkStep (gs.map joinSecs, joinSecs cur) =
        ((ss.foldl groupStep (gs, cur)).1.map joinSecs,
          joinSecs (ss.foldl groupStep (gs, cur)).2) ∧
      ((ss.foldl groupStep (gs, cur)).2 ≠ [] →
        joinSecs (ss.foldl groupStep (gs, cur)).2 ≠ []) := by
  induction ss with
  | nil => intro gs cur _ hcur; exact ⟨rfl, hcur⟩
  | cons s rest ih =>
    intro gs cur hss hcur
    have hs : s ≠ [] := hss s (List.mem_cons_self s rest)
    have hrest : ∀ x ∈ rest, x ≠ [] := fun x hx => hss x (List.mem_cons_of_mem s hx)
    simp only [List.foldl_cons]
    by_cases hover : MAX_DIFF_LENGTH < (joinSecs cur).length + s.length
    · -- overflow branch: seal the current chunk, start a new one with s
      have e1 : chunkStep (gs.map joinSecs, joinSecs cur) s =
          ((gs ++ (if cur = [] then [] else [cur])).map joinSecs, joinSecs [s]) := by
        simp only [chunkStep, if_pos hover, List.map_append]
        by_cases hc : cur = []
        · subst hc; simp [joinSecs]
        · have : joinSecs cur ≠ [] := hcur hc
          simp [hc, this, joinSecs]
      have e2 : groupStep (gs, cur) s =
          (gs ++ (if cur = [] then [] else [cur]), [s]) := by
        simp only [groupStep, if_pos hover]
      rw [e1, e2]
      exact ih (gs ++ (if cur = [] then [] else [cur])) [s] hrest (fun _ => hs)
    · have e1 : chunkStep (gs.map joinSecs, joinSecs cur) s =
          (gs.map joinSecs, joinSecs (cur ++ [s])) := by
        simp only [chunkStep, if_neg hover, joinSecs_append_single]
        by_cases hc : cur = []
        · subst hc; simp [joinSecs]
        · have : joinSecs cur ≠ [] := hcur hc
          simp [hc, this]
      have e2 : groupStep (gs, cur) s = (gs, cur ++ [s]) := by
        simp only [groupStep, if_neg hover]
      rw [e1, e2]
      refine ih gs (cur ++ [s]) hrest ?_
      intro _
      rw [joinSecs_append_single]
      by_cases hc : cur = []
      · subst hc; simpa [joinSecs] using hs
      · have : joinSecs cur ≠ [] := hcur hc
        simp [hc, List.append_eq_nil]

lemma chunksOf_eq_map_joinSecs (d : Chars) :
    chunksOf d = (chunkGroups d).map joinSecs := by
  have h := chunkFold_eq_groupFold (sectionsOf d) [] [] (sectionsOf_ne_nil d)
    (fun hc => absurd rfl hc)
  have h0 : ([] : List Chars) = ([] : List (List Chars)).map joinSecs := rfl
  have h0' : ([] : Chars) = joinSecs [] := rfl
  rw [chunksOf, chunkGroups]
  obtain ⟨heq, hne⟩ := h
  rw [show (([], []) : List Chars × Chars) =
      (([] : List (List Chars)).map joinSecs, joinSecs []) from rfl, heq]
  by_cases hfin : ((sectionsOf d).foldl groupStep ([], [])).2 = []
  · simp [hfin, joinSecs]
  · have := hne hfin
    simp [hfin, this]

lemma groupFold_flatten (ss : List Chars) :
    ∀ (gs : List (List Chars)) (cur : List Chars),
      ((ss.foldl groupStep (gs, cur)).1.flatten ++ (ss.foldl groupStep (gs, cur)).2
        = gs.flatten ++ cur ++ ss) := by
  induction ss with
  | nil => intro gs cur; simp
  | cons s rest ih =>
    intro gs cur
    simp only [List.foldl_cons]
    by_cases hover : MAX_DIFF_LENGTH < (joinSecs cur).length + s.length
    · have e2 : groupStep (gs, cur) s =
          (gs ++ (if cur = [] then [] else [cur]), [s]) := by
        simp only [groupStep, if_pos hover]
      rw [e2, ih]
      by_cases hc : cur = []
      · subst hc; simp
      · simp [hc, List.append_assoc]
    · have e2 : groupStep (gs, cur) s = (gs, cur ++ [s]) := by
        simp only [groupStep, if_neg hover]
      rw [e2, ih]
      simp [List.append_assoc]

lemma chunkGroups_flatten (d : Chars) :
    (chunkGroups d).flatten = sectionsOf d := by
  have h := groupFold_flatten (sectionsOf d) [] []
  rw [chunkGroups]
  by_cases hfin : ((sectionsOf d).foldl groupStep ([], [])).2 = []
  · simp only [hfin] at h ⊢
    simpa using h
  · simp only [hfin, if_neg hfin] at h ⊢
    simpa using h

lemma groupFold_ne_nil (ss : List Chars) :
    ∀ (gs : List (List Chars)) (cur : List Chars),
      (∀ g ∈ gs, g ≠ []) →
      ∀ g ∈ (ss.foldl groupStep (gs, cur)).1 ++
          (if (ss.foldl groupStep (gs, cur)).2 = [] then []
            else [(ss.foldl groupStep (gs, cur)).2]),
        g ≠ [] := by
  induction ss with
  | nil =>
    intro gs cur hgs g hg
    simp only [List.foldl_nil] at hg
    by_cases hc : cur = []
    · simp [hc] at hg
      exact hgs g hg
    · simp [hc] at hg
      rcases hg with hg | hg
      · exact hgs g hg
      · subst hg; exact hc
  | cons s rest ih =>
    intro gs cur hgs
    simp only [List.foldl_cons]
    by_cases hover : MAX_DIFF_LENGTH < (joinSecs cur).length + s.length
    · have e2 : groupStep (gs, cur) s =
          (gs ++ (if cur = [] then [] else [cur]), [s]) := by
        simp only [groupStep, if_pos hover]
      rw [e2]
      refine ih _ _ ?_
      intro g hg
      rcases List.mem_append.mp hg with hg | hg
      · exact hgs g hg
      · by_cases hc : cur = []
        · simp [hc] at hg
        · simp [hc] at hg; subst hg; exact hc
    · have e2 : groupStep (gs, cur) s = (gs, cur ++ [s]) := by
        simp only [groupStep, if_neg hover]
      rw [e2]
      exact ih _ _ hgs

/-- Claim C1: for every diff, the chunk list returned by `splitDiffIntoChunks`
is the newline-serialization of a partition of the diff's file sections into
consecutive non-empty groups, and these groups concatenated in order
reproduce the original `FileSection` sequence exactly — in original order,
with no section duplicated or dropped. -/
theorem splitDiffIntoChunks_roundtrip (diff : String) :
    splitDiffIntoChunks diff = (chunkGroupsS diff).map joinSectionsS ∧
    (chunkGroupsS diff).flatten = fileSections diff ∧
    ∀ g ∈ chunkGroupsS diff, g ≠ [] := by
  refine ⟨?_, ?_, ?_⟩
  · rw [splitDiffIntoChunks, chunksOf_eq_map_joinSecs, chunkGroupsS]
    simp only [List.map_map]
    apply List.map_congr_left
    intro g _
    simp [joinSectionsS, Function.comp_def, List.map_map]
  · rw [chunkGroupsS, fileSections, ← chunkGroups_flatten diff.data]
    rw [← List.map_flatten]
  · intro g hg
    rw [chunkGroupsS] at hg
    simp only [List.mem_map] at hg
    obtain ⟨g', hg', rfl⟩ := hg
    have hne : g' ≠ [] := by
      have h := groupFold_ne_nil (sectionsOf diff.data) [] [] (by intro g hg; cases hg)
      exact h g' (by rw [chunkGroups] at hg'; exact hg')
    simp only [ne_eq, List.map_eq_nil_iff]
    exact hne

/-! ### Chunk length bound (C2) -/

lemma chunkFold_bound (ss : List Chars) :
    ∀ (S : List Chars) (gs : List Chars) (cur : Chars),
      (∀ s ∈ ss, s ∈ S) →
      (∀ c ∈ gs, c ∈ S ∨ c.length ≤ MAX_DIFF_LENGTH + 1) →
      (cur = [] ∨ cur ∈ S ∨ cur.length ≤ MAX_DIFF_LENGTH + 1) →
      ∀ c ∈ (ss.foldl chunkStep (gs, cur)).1 ++
          (if (ss.foldl chunkStep (gs, cur)).2 = [] then []
            else [(ss.foldl chunkStep (gs, cur)).2]),
        c ∈ S ∨ c.length ≤ MAX_DIFF_LENGTH + 1 := by
  induction ss with
  | nil =>
    intro S gs cur _ hgs hcur c hc
    simp only [List.foldl_nil] at hc
    by_cases hz : cur = []
    · simp [hz] at hc
      exact hgs c hc
    · simp [hz] at hc
      rcases hc with hc | hc
      · exact hgs c hc
      · subst hc
        rcases hcur with h | h
        · exact absurd h hz
        · exact h
  | cons s rest ih =>
    intro S gs cur hss hgs hcur
    have hsS : s ∈ S := hss s (List.mem_cons_self s rest)
    have hrest : ∀ x ∈ rest, x ∈ S := fun x hx => hss x (List.mem_cons_of_mem s hx)
    simp only [List.foldl_cons]
    by_cases hover : MAX_DIFF_LENGTH < cur.length + s.length
    · have e1 : chunkStep (gs, cur) s =
          (gs ++ (if cur = [] then [] else [cur]), s) := by
        simp only [chunkStep, if_pos hover]
      rw [e1]
      refine ih S _ s hrest ?_ (Or.inr (Or.inl hsS))
      intro c hc
      rcases List.mem_append.mp hc with hc | hc
      · exact hgs c hc
      · by_cases hz : cur = []
        · simp [hz] at hc
        · simp [hz] at hc
          subst hc
          rcases hcur with h | h
          · exact absurd h hz
          · exact h
    · have e1 : chunkStep (gs, cur) s =
          (gs, cur ++ (if cur = [] then [] else ['\n']) ++ s) := by
        simp only [chunkStep, if_neg hover]
      rw [e1]
      refine ih S gs _ hrest hgs (Or.inr (Or.inr ?_))
      have hlen : cur.length + s.length ≤ MAX_DIFF_LENGTH := Nat.le_of_not_lt hover
      by_cases hz : cur = []
      · simp [hz]
        omega
      · simp [hz, List.length_append]
        omega

/-- Claim C2 (amended): every chunk produced by `splitDiffIntoChunks` has
length at most `MAX_DIFF_LENGTH + 1` — the single newline separator the
greedy check does not account for — except a chunk consisting of a lone
file section, which may be arbitrarily long. -/
theorem splitDiffIntoChunks_chunk_length (diff : String) (c : String)
    (hc : c ∈ splitDiffIntoChunks diff) :
    c.length ≤ MAX_DIFF_LENGTH + 1 ∨
      (c ∈ fileSections diff ∧ MAX_DIFF_LENGTH < c.length) := by
  rw [splitDiffIntoChunks] at hc
  simp only [List.mem_map] at hc
  obtain ⟨l, hl, rfl⟩ := hc
  rw [chunksOf] at hl
  have h := chunkFold_bound (sectionsOf diff.data) (sectionsOf diff.data) [] []
    (fun s hs => hs) (by intro c hc; cases hc) (Or.inl rfl) l hl
  by_cases hlen : l.length ≤ MAX_DIFF_LENGTH + 1
  · exact Or.inl (by simpa using hlen)
  · rcases h with h | h
    · refine Or.inr ⟨?_, ?_⟩
      · rw [fileSections]
        exact List.mem_map.mpr ⟨l, h, rfl⟩
      · simp only [length_mk]
        omega
    · exact absurd h hlen

/-! ### Computing `splitDiffIntoChunks` on a concrete large diff (C2
counterexample).  `splitGo` is evaluated through structural lemmas because
the diff has 15,000 characters. -/

lemma splitGo_ne_nil (sep : Chars) (fuel : Nat) (l : Chars) : splitGo sep fuel l ≠ [] := by
  cases fuel with
  | zero => simp [splitGo]
  | succ n =>
    simp only [splitGo]
    by_cases hp : sep.isPrefixOf l
    · simp [hp]
    · simp only [hp, if_false]
      match l with
      | [] => simp
      | c :: cs =>
        cases h : splitGo sep n cs with
        | nil => simp [h]
        | cons p ps => simp [h]

lemma splitGo_no_occ_append (d : Char) (sep' : Chars) (a : Chars)
    (ha : ∀ c ∈ a, c ≠ d) :
    ∀ (fuel : Nat) (l : Chars),
      splitGo (d :: sep') (a.length + fuel) (a ++ l) =
        match splitGo (d :: sep') fuel l with
        | [] => [a]
        | p :: ps => (a ++ p) :: ps := by
  induction a with
  | nil =>
    intro fuel l
    simp only [List.length_nil, Nat.zero_add, List.nil_append]
    cases h : splitGo (d :: sep') fuel l with
    | nil => exact absurd h (splitGo_ne_nil _ _ _)
    | cons p ps => simp
  | cons c a' ih =>
    intro fuel l
    have hcd : c ≠ d := ha c (List.mem_cons_self c a')
    have ha' : ∀ x ∈ a', x ≠ d := fun x hx => ha x (List.mem_cons_of_mem c hx)
    have harith : (c :: a').length + fuel = (a'.length + fuel) + 1 := by
      simp [List.length_cons]; omega
    rw [harith]
    rw [List.cons_append]
    simp only [splitGo]
    have hnp : (d :: sep').isPrefixOf (c :: (a' ++ l)) = false := by
      simp [List.isPrefixOf]
      intro hdc
      exact absurd hdc.symm hcd
    rw [hnp]
    simp only [Bool.false_eq_true, if_false]
    rw [ih ha' fuel l]
    cases h : splitGo (d :: sep') fuel l with
    | nil => exact absurd h (splitGo_ne_nil _ _ _)
    | cons p ps => simp

lemma splitGo_occ (sep : Chars) (fuel : Nat) (rest : Chars) :
    splitGo sep (fuel + 1) (sep ++ rest) = [] :: splitGo sep fuel rest := by
  simp only [splitGo]
  have hp : sep.isPrefixOf (sep ++ rest) = true := by
    rw [List.isPrefixOf_iff_prefix]
    exact List.prefix_append sep rest
  rw [hp]
  simp [List.drop_left]

lemma splitGo_nil_of_ne (d : Char) (sep' : Chars) (fuel : Nat) :
    splitGo (d :: sep') (fuel + 1) [] = [[]] := by
  simp only [splitGo]
  simp [List.isPrefixOf]

/-- A 7,490-character run of `'a'`. -/
def bigA : Chars := List.replicate 7490 'a'

/-- A diff made of two file sections of 7,500 characters each. -/
def cexDiff : String := String.mk (sepDiffGit ++ (bigA ++ (sepDiffGit ++ bigA)))

lemma bigA_no_d : ∀ c ∈ bigA, c ≠ 'd' := by
  intro c hc
  rw [List.eq_of_mem_replicate hc]
  decide

lemma bigA_length : bigA.length = 7490 := by
  rw [show bigA = List.replicate 7490 'a' from rfl, List.length_replicate]

lemma bigA_ne_nil : bigA ≠ [] := by
  intro h
  have := congrArg List.length h
  rw [bigA_length] at this
  exact absurd this (by decide)

lemma sepDiffGit_cons : sepDiffGit = 'd' :: "iff --git".data := by decide

lemma splitGo_cexData :
    splitGo sepDiffGit 15001 (sepDiffGit ++ (bigA ++ (sepDiffGit ++ bigA))) =
      [[], bigA, bigA] := by
  have h1 := splitGo_occ sepDiffGit 15000 (bigA ++ (sepDiffGit ++ bigA))
  norm_num at h1
  rw [h1]
  have h4 : splitGo sepDiffGit 7509 bigA = [bigA] := by
    have h4a := splitGo_no_occ_append 'd' ("iff --git".data) bigA bigA_no_d 19 []
    rw [bigA_length, List.append_nil, ← sepDiffGit_cons] at h4a
    norm_num at h4a
    rw [h4a]
    have h4b : splitGo sepDiffGit 19 [] = [[]] := by
      rw [sepDiffGit_cons]
      exact splitGo_nil_of_ne 'd' ("iff --git".data) 18
    rw [h4b]
    simp
  have h3 : splitGo sepDiffGit 7510 (sepDiffGit ++ bigA) = [[], bigA] := by
    have := splitGo_occ sepDiffGit 7509 bigA
    norm_num at this
    rw [this, h4]
  have h2 : splitGo sepDiffGit 15000 (bigA ++ (sepDiffGit ++ bigA)) = [bigA, bigA] := by
    have h2a := splitGo_no_occ_append 'd' ("iff --git".data) bigA bigA_no_d 7510
      (sepDiffGit ++ bigA)
    rw [bigA_length, ← sepDiffGit_cons] at h2a
    norm_num at h2a
    rw [h2a, h3]
    simp
  rw [h2]

lemma sections_cexDiff :
    sectionsOf cexDiff.data = [sepDiffGit ++ bigA, sepDiffGit ++ bigA] := by
  have hlen : (sepDiffGit ++ (bigA ++ (sepDiffGit ++ bigA))).length = 15000 := by
    simp [List.length_append, bigA_length]
    decide
  rw [show cexDiff.data = sepDiffGit ++ (bigA ++ (sepDiffGit ++ bigA)) from rfl]
  rw [sectionsOf, jsSplitList]
  rw [if_neg (by decide : ¬ sepDiffGit = [])]
  rw [hlen]
  rw [show (15000 + 1 : Nat) = 15001 from rfl]
  rw [splitGo_cexData]
  simp [bigA_ne_nil]

lemma sectionLen : (sepDiffGit ++ bigA).length = 7500 := by
  simp [List.length_append, bigA_length]
  decide

lemma chunkStep_eq (chunks : List Chars) (cur sec : Chars) :
    chunkStep (chunks, cur) sec =
      if MAX_DIFF_LENGTH < cur.length + sec.length then
        (chunks ++ (if cur = [] then [] else [cur]), sec)
      else
        (chunks, cur ++ (if cur = [] then [] else ['\n']) ++ sec) := rfl

lemma chunksOf_eq (d : Chars) :
    chunksOf d =
      ((sectionsOf d).foldl chunkStep ([], [])).1 ++
        (if ((sectionsOf d).foldl chunkStep ([], [])).2 = [] then []
          else [((sectionsOf d).foldl chunkStep ([], [])).2]) := rfl

lemma chunks_cexDiff :
    chunksOf cexDiff.data = [(sepDiffGit ++ bigA) ++ '\n' :: (sepDiffGit ++ bigA)] := by
  have hsec_ne : sepDiffGit ++ bigA ≠ [] := fun h =>
    bigA_ne_nil (List.append_eq_nil.mp h).2
  have hc1 : ¬ MAX_DIFF_LENGTH < ([] : Chars).length + (sepDiffGit ++ bigA).length := by
    rw [List.length_nil, sectionLen]
    decide
  have hc2 : ¬ MAX_DIFF_LENGTH <
      (sepDiffGit ++ bigA).length + (sepDiffGit ++ bigA).length := by
    rw [sectionLen]
    decide
  have e1 : chunkStep ([], []) (sepDiffGit ++ bigA) = ([], sepDiffGit ++ bigA) := by
    rw [chunkStep_eq, if_neg hc1, if_pos rfl, List.nil_append, List.nil_append]
  have e2 : chunkStep ([], sepDiffGit ++ bigA) (sepDiffGit ++ bigA) =
      ([], (sepDiffGit ++ bigA) ++ '\n' :: (sepDiffGit ++ bigA)) := by
    rw [chunkStep_eq, if_neg hc2, if_neg hsec_ne, List.append_assoc,
      List.singleton_append]
  have hchunk_ne : (sepDiffGit ++ bigA) ++ '\n' :: (sepDiffGit ++ bigA) ≠ [] := fun h =>
    List.cons_ne_nil _ _ (List.append_eq_nil.mp h).2
  rw [chunksOf_eq, sections_cexDiff, List.foldl_cons, e1, List.foldl_cons, e2,
    List.foldl_nil]
  show ([] : List Chars) ++
      (if (sepDiffGit ++ bigA) ++ '\n' :: (sepDiffGit ++ bigA) = [] then []
        else [(sepDiffGit ++ bigA) ++ '\n' :: (sepDiffGit ++ bigA)]) =
    [(sepDiffGit ++ bigA) ++ '\n' :: (sepDiffGit ++ bigA)]
  rw [if_neg hchunk_ne, List.nil_append]

/-- Claim C2 counterexample: `cexDiff` has two file sections of 7,500
characters each — every section is within `MAX_DIFF_LENGTH` — yet
`splitDiffIntoChunks` packs them into a single chunk of 15,001 characters,
because the greedy overflow check does not count the newline separator it
inserts between sections. -/
theorem splitDiffIntoChunks_overflow_cex :
    (∀ s ∈ fileSections cexDiff, s.length ≤ MAX_DIFF_LENGTH) ∧
    ∃ c ∈ splitDiffIntoChunks cexDiff, MAX_DIFF_LENGTH < c.length := by
  constructor
  · intro s hs
    rw [fileSections, sections_cexDiff] at hs
    simp only [List.map_cons, List.map_nil, List.mem_cons, List.not_mem_nil,
      or_false] at hs
    rcases hs with rfl | rfl <;>
      · rw [length_mk, sectionLen]
        decide
  · refine ⟨String.mk ((sepDiffGit ++ bigA) ++ '\n' :: (sepDiffGit ++ bigA)), ?_, ?_⟩
    · rw [splitDiffIntoChunks, chunks_cexDiff]
      simp
    · rw [length_mk]
      have h10 : sepDiffGit.length = 10 := by decide
      simp only [List.length_append, List.length_cons, bigA_length, h10, MAX_DIFF_LENGTH]
      omega

/-- Witness for the amended C2 bound at a concrete one-section diff. -/
theorem splitDiffIntoChunks_chunk_length_witness :
    ("diff --gitA" : String).length ≤ MAX_DIFF_LENGTH + 1 ∨
      (("diff --gitA" : String) ∈ fileSections "diff --gitA" ∧
        MAX_DIFF_LENGTH < ("diff --gitA" : String).length) :=
  splitDiffIntoChunks_chunk_length "diff --gitA" "diff --gitA" (by decide)

/-! ### Configuration data model (src/types/index.ts) -/

/-- `AIProvider` (src/services/aiServiceFactory.ts): `'gemini' | 'openai'`. -/
inductive AIProvider where
  | gemini
  | openai
deriving DecidableEq, Repr

/-- The persisted `Config` record (src/types/index.ts).  Optional fields are
`Option`; `LAST_REQUEST_TIME` is a millisecond timestamp. -/
structure Config where
  AI_PROVIDER : AIProvider
  GEMINI_API_KEY : Option String := none
  OPENAI_API_KEY : Option String := none
  IS_FREE_ACCOUNT : Bool
  LAST_REQUEST_TIME : Option Int := none
  MODEL : Option String := none
deriving DecidableEq, Repr

/-- `GenerateMessageOptions` (src/types/index.ts). -/
structure GenerateMessageOptions where
  diff : String
  multiline : Bool
  useType : Bool := false
  emoji : Bool := false
  scope : Option String := none
  breaking : Bool := false
  ref : Option String := none
  customPrompt : Option String := none
  model : Option String := none
deriving DecidableEq, Repr

/-- JavaScript truthiness for an optional string: `undefined` and `''` are
falsy. -/
def jsTruthyStr : Option String → Bool
  | none => false
  | some s => s ≠ ""

/-! ### rateLimiter (aiService.ts lines 12–27, claim C4)

The stateful function is embedded as a pure transition: it receives the
config and `Date.now()` at entry, and returns the updated config together
with the number of milliseconds the `setTimeout` wait suspends the caller
(0 when it does not wait).  The time at the moment of return is therefore
`now + waited`. -/

def rateLimiter (config : Config) (now : Int) : Config × Int :=
  if config.IS_FREE_ACCOUNT then
    let lastRequest : Int := config.LAST_REQUEST_TIME.getD 0
    let timeSinceLastRequest := now - lastRequest
    let waited : Int :=
      if timeSinceLastRequest < FREE_ACCOUNT_COOLDOWN then
        FREE_ACCOUNT_COOLDOWN - timeSinceLastRequest
      else 0
    ({ config with LAST_REQUEST_TIME := some now }, waited)
  else
    (config, 0)

/-- Claim C4 counterexample: on a free account whose last request was at
time 0, a call entering at time 10,000 waits 50,000 ms, so it returns at
time 60,000 — but the stored timestamp is the entry time 10,000, not the
time at the moment of return. -/
theorem rateLimiter_stores_entry_time_cex :
    (rateLimiter ⟨AIProvider.gemini, none, none, true, some 0, none⟩ 10000).2 = 50000 ∧
    (rateLimiter ⟨AIProvider.gemini, none, none, true, some 0, none⟩ 10000).1.LAST_REQUEST_TIME
      = some 10000 ∧
    (rateLimiter ⟨AIProvider.gemini, none, none, true, some 0, none⟩ 10000).1.LAST_REQUEST_TIME
      ≠ some (10000 + (rateLimiter ⟨AIProvider.gemini, none, none, true, some 0, none⟩ 10000).2) := by
  refine ⟨rfl, rfl, ?_⟩
  decide

/-- Claim C4 (amended): on a free account the stored last-request timestamp
is the time at which `rateLimiter` was entered (the `now` captured before
any waiting); it equals the time at the moment of return exactly when the
call did not wait. -/
theorem rateLimiter_stores_entry_time (config : Config) (now : Int)
    (hfree : config.IS_FREE_ACCOUNT = true) :
    (rateLimiter config now).1.LAST_REQUEST_TIME = some now ∧
    ((rateLimiter config now).2 = 0 →
      (rateLimiter config now).1.LAST_REQUEST_TIME
        = some (now + (rateLimiter config now).2)) := by
  constructor
  · rw [rateLimiter, if_pos hfree]
  · intro hw
    rw [hw, Int.add_zero]
    rw [rateLimiter, if_pos hfree]

/-- Witness for the amended C4 statement: entered at time 70,000 with last
request at 0, the limiter does not wait and stores the entry time. -/
theorem rateLimiter_stores_entry_time_witness :
    (rateLimiter ⟨AIProvider.gemini, none, none, true, some 0, none⟩ 70000).1.LAST_REQUEST_TIME
        = some 70000 ∧
    ((rateLimiter ⟨AIProvider.gemini, none, none, true, some 0, none⟩ 70000).2 = 0 →
      (rateLimiter ⟨AIProvider.gemini, none, none, true, some 0, none⟩ 70000).1.LAST_REQUEST_TIME
        = some (70000 + (rateLimiter ⟨AIProvider.gemini, none, none, true, some 0, none⟩ 70000).2)) :=
  rateLimiter_stores_entry_time ⟨AIProvider.gemini, none, none, true, some 0, none⟩ 70000 rfl

/-! ### batchProcess (aiService.ts lines 29–61, claim C3)

The processor is fallible (`Except`), mirroring a promise that either
resolves with a string or rejects; a rejected item is caught and replaced
by the empty-string placeholder (line 48), and falsy entries are filtered
from the final result (line 60).  The windowed loop is a fuel-based fold;
`items.length` fuel always suffices for a positive window size. -/

/-- The caught result of one processor invocation (lines 44–49). -/
def resultStr : Except Unit String → String
  | .ok s => s
  | .error _ => ""

/-- The batched loop (lines 37–58): process `K` items at a time. -/
def batchGo (K : Nat) (f : α → String) : Nat → List α → List String
  | _, [] => []
  | 0, _ :: _ => []
  | fuel + 1, items@(_ :: _) => (items.take K).map f ++ batchGo K f fuel (items.drop K)

/-- `batchProcess` (lines 29–61). -/
def batchProcess (items : List α) (processor : α → Except Unit String)
    (config : Config) : List String :=
  let MAX_CONCURRENT_REQUESTS : Nat := if config.IS_FREE_ACCOUNT then 2 else 5
  (batchGo MAX_CONCURRENT_REQUESTS (fun it => resultStr (processor it))
      items.length items).filter (fun s => s ≠ "")

lemma batchGo_eq_map (K : Nat) (hK : 1 ≤ K) (f : α → String) :
    ∀ (fuel : Nat) (items : List α), items.length ≤ fuel →
      batchGo K f fuel items = items.map f := by
  intro fuel
  induction fuel with
  | zero =>
    intro items hlen
    match items with
    | [] => rfl
    | _ :: _ => simp at hlen
  | succ n ih =>
    intro items hlen
    match items with
    | [] => rfl
    | x :: xs =>
      rw [show batchGo K f (n + 1) (x :: xs) =
          ((x :: xs).take K).map f ++ batchGo K f n ((x :: xs).drop K) from rfl]
      rw [ih ((x :: xs).drop K) (by simp [List.length_drop] at *; omega)]
      rw [← List.map_append, List.take_append_drop]

lemma filter_length_partition (l : List α) (p : α → Bool) :
    (l.filter p).length + (l.filter (fun a => !(p a))).length = l.length := by
  induction l with
  | nil => rfl
  | cons x xs ih =>
    by_cases hx : p x
    · simp [List.filter_cons, hx, ← ih]
      omega
    · simp [List.filter_cons, hx, ← ih]
      omega

/-- Claim C3: for every item list, every account tier (window size 2 when
constrained, 5 otherwise), and every processor that fails on some items and
returns a non-empty string on every item it succeeds on, `batchProcess`
returns exactly the successful results in original relative order, and its
length is the item count minus the number of failing items. -/
theorem batchProcess_drops_failures (items : List α)
    (processor : α → Except Unit String) (config : Config)
    (h : ∀ it ∈ items, (processor it).isOk = true → resultStr (processor it) ≠ "") :
    batchProcess items processor config
        = (items.filter (fun it => (processor it).isOk)).map
            (fun it => resultStr (processor it)) ∧
    (batchProcess items processor config).length
        = items.length - (items.filter (fun it => !(processor it).isOk)).length := by
  have hmap : batchProcess items processor config
      = ((items.map (fun it => resultStr (processor it))).filter (fun s => s ≠ "")) := by
    rw [batchProcess]
    by_cases hfree : config.IS_FREE_ACCOUNT
    · rw [if_pos hfree, batchGo_eq_map 2 (by omega) _ items.length items (Nat.le_refl _)]
    · rw [if_neg hfree, batchGo_eq_map 5 (by omega) _ items.length items (Nat.le_refl _)]
  have hfil : (items.map (fun it => resultStr (processor it))).filter (fun s => s ≠ "")
      = (items.filter (fun it => (processor it).isOk)).map
          (fun it => resultStr (processor it)) := by
    rw [List.filter_map]
    congr 1
    apply List.filter_congr
    intro it hit
    show decide (resultStr (processor it) ≠ "") = (processor it).isOk
    cases hp : processor it with
    | ok s =>
      have : s ≠ "" := by
        have := h it hit
        rw [hp] at this
        exact this (by rfl)
      simp [resultStr, Except.isOk, Except.toBool, this]
    | error e => simp [resultStr, Except.isOk, Except.toBool]
  refine ⟨hmap.trans hfil, ?_⟩
  rw [hmap.trans hfil, List.length_map]
  have := filter_length_partition items (fun it => (processor it).isOk)
  omega

/-- Witness for C3: three items, the middle one failing. -/
theorem batchProcess_drops_failures_witness :
    batchProcess [1, 2, 3]
        (fun n => if n = 2 then Except.error () else Except.ok (if n = 1 then "one" else "three"))
        ⟨AIProvider.gemini, none, none, false, none, none⟩
      = (([1, 2, 3].filter
            (fun it => ((fun n => if n = 2 then Except.error () else
              Except.ok (if n = 1 then "one" else "three")) it).isOk)).map
          (fun it => resultStr ((fun n => if n = 2 then Except.error () else
            Except.ok (if n = 1 then "one" else "three")) it))) ∧
    (batchProcess [1, 2, 3]
        (fun n => if n = 2 then Except.error () else Except.ok (if n = 1 then "one" else "three"))
        ⟨AIProvider.gemini, none, none, false, none, none⟩).length
      = ([1, 2, 3] : List Nat).length - (([1, 2, 3] : List Nat).filter
          (fun it => !((fun n => if n = 2 then Except.error () else
            Except.ok (if n = 1 then "one" else "three")) it).isOk)).length :=
  batchProcess_drops_failures [1, 2, 3] _ ⟨AIProvider.gemini, none, none, false, none, none⟩
    (by decide)

/-! ### More JavaScript string primitives, for the formatting rules -/

/-- The character class `\s` of JavaScript regexes, which is also the set
trimmed by `String.prototype.trim`. -/
def isJsWhitespace (c : Char) : Bool :=
  c == ' ' || c == '\t' || c == '\n' || c == '\r' ||
  c == '\u000b' || c == '\u000c' ||
  decide (c.toNat = 0xA0) || decide (c.toNat = 0x1680) ||
  (decide (0x2000 ≤ c.toNat) && decide (c.toNat ≤ 0x200A)) ||
  decide (c.toNat = 0x2028) || decide (c.toNat = 0x2029) ||
  decide (c.toNat = 0x202F) || decide (c.toNat = 0x205F) ||
  decide (c.toNat = 0x3000) || decide (c.toNat = 0xFEFF)

/-- JavaScript line terminators — the characters `.` does not match. -/
def isLineTerm (c : Char) : Bool :=
  c == '\n' || c == '\r' || decide (c.toNat = 0x2028) || decide (c.toNat = 0x2029)

/-- The emoji character class `[\u{1F300}-\u{1F9FF}]` of `enforceCommitType`. -/
def isEmojiChar (c : Char) : Bool :=
  decide (0x1F300 ≤ c.toNat) && decide (c.toNat ≤ 0x1F9FF)

/-- The character class `\w` (no `u`-flag semantics needed: `[A-Za-z0-9_]`). -/
def isWordChar (c : Char) : Bool :=
  c.isAlphanum || c == '_'

/-- Substring containment, as `String.prototype.includes`. -/
def containsSub (pat : Chars) : Chars → Bool
  | [] => pat.isPrefixOf []
  | c :: cs => pat.isPrefixOf (c :: cs) || containsSub pat cs

/-- `s.includes(needle)`. -/
def jsIncludes (needle s : String) : Bool :=
  containsSub needle.data s.data

/-- `String.prototype.replace` with a string pattern: replace the leftmost
occurrence only.  `fuel ≥ l.length` always suffices. -/
def jsReplaceFirstGo (pat rep : Chars) : Nat → Chars → Chars
  | 0, l => l
  | fuel + 1, l =>
    if pat.isPrefixOf l then rep ++ l.drop pat.length
    else
      match l with
      | [] => []
      | c :: cs => c :: jsReplaceFirstGo pat rep fuel cs

/-- `s.replace(pat, rep)` for a string (non-regex) pattern. -/
def jsReplaceFirst (pat rep s : String) : String :=
  String.mk (jsReplaceFirstGo pat.data rep.data (s.data.length + 1) s.data)

/-- `String.prototype.trim`. -/
def jsTrim (s : String) : String :=
  String.mk (((s.data.dropWhile isJsWhitespace).reverse.dropWhile isJsWhitespace).reverse)

/-- `String.prototype.toLowerCase` (ASCII case mapping suffices here). -/
def jsToLower (s : String) : String :=
  String.mk (s.data.map Char.toLower)

/-! ### AIService initialization (aiService.ts lines 273–297, claim C6) -/

/-- The environment variables consulted by `initializeService`. -/
structure Env where
  GEMINI_API_KEY : Option String := none
  OPENAI_API_KEY : Option String := none
deriving DecidableEq, Repr

/-- Provider identifier interpolated into the error message. -/
def providerName : AIProvider → String
  | .gemini => "gemini"
  | .openai => "openai"

/-- JavaScript `a || b` on optional strings (empty string is falsy). -/
def jsOrStr (a b : Option String) : Option String :=
  if jsTruthyStr a then a else b

/-- The credential-resolution part of `AIService.initializeService`
(lines 281–287): the config key wins over the environment key, and a
missing (or empty) key is a thrown error.  The provider-object construction
and `service.initialize` call carry no observable state for the properties
verified here and never throw for a well-typed provider. -/
def initializeService (config : Config) (env : Env) : Except String Unit :=
  let envKey := match config.AI_PROVIDER with
    | .gemini => env.GEMINI_API_KEY
    | .openai => env.OPENAI_API_KEY
  let configKey := match config.AI_PROVIDER with
    | .gemini => config.GEMINI_API_KEY
    | .openai => config.OPENAI_API_KEY
  let apiKey := jsOrStr configKey envKey
  if jsTruthyStr apiKey then Except.ok ()
  else Except.error ("No API key found for " ++ providerName config.AI_PROVIDER ++
    ". Please set it in the config or as an environment variable.")

/-! ### buildPrompt (aiService.ts lines 388–423) -/

def buildPrompt (options : GenerateMessageOptions) : String :=
  if jsTruthyStr options.customPrompt then
    options.customPrompt.getD "" ++ "\n\nGit diff:\n" ++ options.diff
  else
    let p := "Generate a concise git commit message for the following changes. Output only the commit message, with no extra text or formatting."
    let p := if options.useType then
        p ++ "\nUse conventional commit format with an appropriate commit type (feat, fix, docs, style, refactor, perf, test, build, ci, chore, revert)."
      else p
    let p := if jsTruthyStr options.scope then
        p ++ "\nInclude the scope: (" ++ options.scope.getD "" ++ ")"
      else p
    let p := if options.breaking then
        p ++ "\nThis is a BREAKING CHANGE. Include a \"BREAKING CHANGE:\" footer with details."
      else p
    let p := if jsTruthyStr options.ref then
        p ++ "\n Include a reference to " ++ options.ref.getD "" ++ " in the footer."
      else p
    let p := if options.emoji then p ++ "\nInclude a relevant emoji at the start." else p
    let p := if options.multiline then
        p ++ "\nProvide a detailed description in the commit body."
      else p
    p ++ "\n\nGit diff:\n" ++ options.diff

/-! ### Message formatting (aiService.ts lines 353–371, claims C8 and C10) -/

/-- Scope injection (line 359): `replace(/^(\w+:)/, "$1(scope)")`. -/
def injectScope (scope : String) (m : Chars) : Chars :=
  let w := m.takeWhile isWordChar
  if w = [] then m
  else
    match m.drop w.length with
    | ':' :: rest => w ++ ':' :: ('(' :: scope.data ++ [')']) ++ rest
    | _ => m

/-- Line 359: scope is only injected when the option is truthy. -/
def applyScope (scope : Option String) (m : String) : String :=
  if jsTruthyStr scope then String.mk (injectScope (scope.getD "") m.data) else m

/-- Lines 363–365: insert the breaking-change marker at the first blank-line
pair unless the literal marker is already present. -/
def applyBreaking (breaking : Bool) (m : String) : String :=
  if breaking && !jsIncludes "BREAKING CHANGE" m then
    jsReplaceFirst "\n\n" "\n\nBREAKING CHANGE: " m
  else m

/-- Lines 368–370: append a `Refs:` trailer unless the reference already
occurs case-insensitively. -/
def applyRef (ref : Option String) (m : String) : String :=
  if jsTruthyStr ref && !jsIncludes (jsToLower (ref.getD "")) (jsToLower m) then
    m ++ "\n\nRefs: " ++ ref.getD ""
  else m

/-- The formatting pipeline of `AIService.generateCommitMessage`
(lines 353–371): trim, then scope, then breaking marker, then reference. -/
def formatMessage (options : GenerateMessageOptions) (message : String) : String :=
  applyRef options.ref (applyBreaking options.breaking
    (applyScope options.scope (jsTrim message)))

/-! ### AIService.generateCommitMessage (aiService.ts lines 299–386) -/

/-- The thrown rate-limit message (line 315). -/
def rateLimitMsg : String :=
  "Rate limit exceeded. Please wait 1 minute between requests on free accounts."

instance {ε α : Type} [DecidableEq ε] [DecidableEq α] : DecidableEq (Except ε α) := fun x y =>
  match x, y with
  | .ok a, .ok b =>
    if h : a = b then isTrue (by rw [h])
    else isFalse (fun hc => h (by injection hc))
  | .error a, .error b =>
    if h : a = b then isTrue (by rw [h])
    else isFalse (fun hc => h (by injection hc))
  | .ok _, .error _ => isFalse (fun hc => Except.noConfusion hc)
  | .error _, .ok _ => isFalse (fun hc => Except.noConfusion hc)

/-- Outcome of one `generateCommitMessage` call: the settled promise and
the number of completion requests issued to the bound service. -/
structure GenOutcome where
  result : Except String String
  completionCalls : Nat
deriving DecidableEq, Repr

/-- `AIService.generateCommitMessage` (lines 299–386).  `serviceInitialized`
is whether `this.service` is already bound (line 304); `now` is `Date.now()`
at the rate-limit check (line 312); `complete` is the bound service's
`generateContent`.  Every error thrown inside the `try` block is re-wrapped
by the `catch` (line 384).  The post-success persistence of
`LAST_REQUEST_TIME` (lines 374–378) does not affect the returned message
and is not tracked in the outcome. -/
def AIService.generateCommitMessage (serviceInitialized : Bool) (config : Config)
    (env : Env) (options : GenerateMessageOptions) (now : Int)
    (complete : String → Except String String) : GenOutcome :=
  let inner : Except String String × Nat :=
    match (if serviceInitialized then Except.ok () else initializeService config env) with
    | .error e => (.error e, 0)
    | .ok _ =>
      if config.IS_FREE_ACCOUNT && decide (now - config.LAST_REQUEST_TIME.getD 0 < 60000) then
        (.error rateLimitMsg, 0)
      else
        match complete (buildPrompt options) with
        | .error e => (.error e, 1)
        | .ok message => (.ok (formatMessage options message), 1)
  match inner with
  | (.error e, n) => ⟨.error ("Failed to generate commit message: " ++ e), n⟩
  | (.ok m, n) => ⟨.ok m, n⟩

/-- Claim C5: on a free account whose stored last-request timestamp is less
than 60,000 ms before the current time, `generateCommitMessage` rejects with
the rate-limit error (whose text instructs waiting one minute), wrapped by
the top-level catch, and issues no completion request.  The service must
already be bound or bindable (the credential check of line 304/273 runs
first). -/
theorem generateCommitMessage_rate_limited (serviceInitialized : Bool) (config : Config)
    (env : Env) (options : GenerateMessageOptions) (now : Int)
    (complete : String → Except String String)
    (hfree : config.IS_FREE_ACCOUNT = true)
    (hrate : now - config.LAST_REQUEST_TIME.getD 0 < 60000)
    (hinit : serviceInitialized = true ∨ (initializeService config env).isOk = true) :
    AIService.generateCommitMessage serviceInitialized config env options now complete =
      ⟨Except.error ("Failed to generate commit message: " ++ rateLimitMsg), 0⟩ := by
  have hok : (if serviceInitialized then Except.ok () else initializeService config env)
      = Except.ok () := by
    rcases hinit with h | h
    · rw [h, if_pos rfl]
    · cases hini : initializeService config env with
      | ok u => cases u; cases serviceInitialized <;> simp [hini]
      | error e =>
        rw [hini] at h
        simp [Except.isOk, Except.toBool] at h
  have hcond : (config.IS_FREE_ACCOUNT &&
      decide (now - config.LAST_REQUEST_TIME.getD 0 < 60000)) = true := by
    rw [hfree]
    simp [hrate]
  simp only [AIService.generateCommitMessage, hok, hcond, if_true]

/-- Witness for C5: stored timestamp 0, current time 1,000 ms. -/
theorem generateCommitMessage_rate_limited_witness :
    AIService.generateCommitMessage true ⟨AIProvider.gemini, none, none, true, some 0, none⟩
        ⟨none, none⟩ ⟨"", false, false, false, none, false, none, none, none⟩ 1000
        (fun _ => Except.ok "feat: x")
      = ⟨Except.error ("Failed to generate commit message: " ++ rateLimitMsg), 0⟩ :=
  generateCommitMessage_rate_limited true ⟨AIProvider.gemini, none, none, true, some 0, none⟩
    ⟨none, none⟩ ⟨"", false, false, false, none, false, none, none, none⟩ 1000
    (fun _ => Except.ok "feat: x") rfl (by decide) (Or.inl rfl)

/-- Claim C6 counterexample: with no credential anywhere, the caller does not
receive the missing-credential error verbatim — it receives it wrapped in
"Failed to generate commit message: …". -/
theorem generateCommitMessage_wraps_credential_error_cex :
    (AIService.generateCommitMessage false ⟨AIProvider.gemini, none, none, false, none, none⟩
        ⟨none, none⟩ ⟨"", false, false, false, none, false, none, none, none⟩ 0
        (fun _ => Except.ok "m")).result
      = Except.error ("Failed to generate commit message: No API key found for gemini. Please set it in the config or as an environment variable.") ∧
    (AIService.generateCommitMessage false ⟨AIProvider.gemini, none, none, false, none, none⟩
        ⟨none, none⟩ ⟨"", false, false, false, none, false, none, none, none⟩ 0
        (fun _ => Except.ok "m")).result
      ≠ Except.error "No API key found for gemini. Please set it in the config or as an environment variable." := by
  constructor
  · rfl
  · decide

/-- Claim C6 (amended): when no credential is available for the selected
provider, `generateCommitMessage` fails without issuing a completion
request, and the missing-credential error reaches the caller wrapped as
"Failed to generate commit message: <original message>" — the original text
is preserved verbatim as the suffix, but the error object is re-wrapped,
not surfaced unmodified. -/
theorem generateCommitMessage_missing_key (config : Config) (env : Env)
    (options : GenerateMessageOptions) (now : Int)
    (complete : String → Except String String) (e : String)
    (hinit : initializeService config env = Except.error e) :
    AIService.generateCommitMessage false config env options now complete =
      ⟨Except.error ("Failed to generate commit message: " ++ e), 0⟩ := by
  simp only [AIService.generateCommitMessage, Bool.false_eq_true, if_false, hinit]

/-- Witness for the amended C6 at a concrete keyless configuration. -/
theorem generateCommitMessage_missing_key_witness :
    AIService.generateCommitMessage false ⟨AIProvider.openai, none, none, false, none, none⟩
        ⟨none, none⟩ ⟨"", false, false, false, none, false, none, none, none⟩ 0
        (fun _ => Except.ok "m")
      = ⟨Except.error ("Failed to generate commit message: No API key found for openai. Please set it in the config or as an environment variable."), 0⟩ :=
  generateCommitMessage_missing_key ⟨AIProvider.openai, none, none, false, none, none⟩
    ⟨none, none⟩ ⟨"", false, false, false, none, false, none, none, none⟩ 0
    (fun _ => Except.ok "m")
    "No API key found for openai. Please set it in the config or as an environment variable."
    rfl

/-! ### enforceCommitType (aiService.ts lines 162–188, claims C7 and C9)

The three regexes are embedded as deterministic functions; where the
original patterns backtrack (`\s*` before a required non-whitespace class),
the backtracking is modelled explicitly (`wsBT`). -/

/-- `CommitType` (src/types/index.ts) is a union of string literals. -/
abbrev CommitType := String

/-- Backtracking `\s*`: try the longest whitespace run first, then shorter
ones, until the continuation succeeds. -/
def wsBT (k : Chars → Option Chars) : Chars → Option Chars
  | [] => k []
  | c :: cs =>
    if isJsWhitespace c then
      (wsBT k cs).orElse (fun _ => k (c :: cs))
    else k (c :: cs)

/-- `(.+)` without the `s` flag: at least one non-line-terminator character,
greedy to the end of the line. -/
def tryDesc : Chars → Option Chars
  | [] => none
  | c :: cs =>
    if isLineTerm c then none
    else some ((c :: cs).takeWhile (fun ch => !isLineTerm ch))

/-- The part of `/^[^:]+:\s*(?:[\u{1F300}-\u{1F9FF}]\s*)?(.+)/u` after the
colon: optional whitespace, an optional single emoji followed by optional
whitespace, then the description. -/
def descAfterColon (rest : Chars) : Option Chars :=
  wsBT (fun l =>
    (match l with
      | e :: cs => if isEmojiChar e then wsBT tryDesc cs else none
      | [] => none).orElse
    (fun _ => tryDesc l)) rest

/-- The description-extraction regex of line 177:
`message.match(/^[^:]+:\s*(?:[\u{1F300}-\u{1F9FF}]\s*)?(.+)/u)`, returning
the capture group.  `[^:]+` must match at least one character before the
first colon. -/
def descMatch (m : Chars) : Option Chars :=
  let pre := m.takeWhile (fun c => c != ':')
  if pre = [] then none
  else
    match m.drop pre.length with
    | ':' :: rest => descAfterColon rest
    | _ => none

/-- The scope-extraction regexes of lines 164–165:
`/^[a-z]+(?:\([^)]+\))?:/` followed by `/\([^)]+\)/` on the match.  Returns
the parenthesized scope (with parentheses) when present. -/
def scopeOf (m : Chars) : Option Chars :=
  let letters := m.takeWhile (fun c => decide ('a' ≤ c) && decide (c ≤ 'z'))
  if letters = [] then none
  else
    match m.drop letters.length with
    | '(' :: rest =>
      let inner := rest.takeWhile (fun c => c != ')')
      if inner = [] then none
      else
        match rest.drop inner.length with
        | ')' :: ':' :: _ => some ('(' :: inner ++ [')'])
        | _ => none
    | _ => none

/-- The emoji-search regex of line 170:
`message.match(/:\s*([\u{1F300}-\u{1F9FF}])/u)` — the first colon followed,
after whitespace, by an emoji-range character; returns that character. -/
def emojiSearch : Chars → Option Char
  | [] => none
  | c :: cs =>
    if c = ':' then
      match cs.dropWhile isJsWhitespace with
      | e :: _ => if isEmojiChar e then some e else emojiSearch cs
      | [] => emojiSearch cs
    else emojiSearch cs

/-- `enforceCommitType` (aiService.ts lines 162–188). -/
def enforceCommitType (message : String) (type : CommitType) (emoji : Bool) : String :=
  let scope : Option Chars := scopeOf message.data
  let emojiToKeep : Chars :=
    if emoji then
      match emojiSearch message.data with
      | some e => [e]
      | none => []
    else []
  let description : Chars := (descMatch message.data).getD message.data
  String.mk (type.data ++ scope.getD [] ++ (':' :: [' ']) ++
    (if emoji && !(emojiToKeep = []) then emojiToKeep ++ [' '] else []) ++ description)

/-- Claim C7: rewriting `"fix(api): 🐛 old desc"` to enforced type `"feat"`
keeps the scope and description; the emoji is kept exactly when emoji mode
is enabled. -/
theorem enforceCommitType_example :
    enforceCommitType "fix(api): 🐛 old desc" "feat" true = "feat(api): 🐛 old desc" ∧
    enforceCommitType "fix(api): 🐛 old desc" "feat" false = "feat(api): old desc" := by
  constructor
  · decide
  · decide

/-! ### Substring search and first-occurrence replacement: lemmas -/

lemma containsSub_iff (pat : Chars) : ∀ l : Chars, containsSub pat l = true ↔ pat <:+: l := by
  intro l
  induction l with
  | nil =>
    rw [containsSub]
    rw [List.isPrefixOf_iff_prefix, List.infix_nil, List.prefix_nil]
  | cons c cs ih =>
    rw [containsSub, Bool.or_eq_true, List.isPrefixOf_iff_prefix, ih,
      List.infix_cons_iff]

lemma jsIncludes_iff (needle s : String) :
    jsIncludes needle s = true ↔ needle.data <:+: s.data :=
  containsSub_iff needle.data s.data

lemma jsReplaceFirstGo_no_occ (pat rep : Chars) :
    ∀ (fuel : Nat) (l : Chars), ¬ pat <:+: l → jsReplaceFirstGo pat rep fuel l = l := by
  intro fuel
  induction fuel with
  | zero => intro l _; rfl
  | succ n ih =>
    intro l hni
    simp only [jsReplaceFirstGo]
    have hp : pat.isPrefixOf l = false := by
      rw [Bool.eq_false_iff, ne_eq, List.isPrefixOf_iff_prefix]
      intro hpre
      exact hni hpre.isInfix
    rw [hp]
    simp only [Bool.false_eq_true, if_false]
    match l with
    | [] => rfl
    | c :: cs =>
      show c :: jsReplaceFirstGo pat rep n cs = c :: cs
      rw [ih cs (fun hin => hni (List.infix_cons hin))]

lemma jsReplaceFirstGo_infix_rep (pat rep needle : Chars) (hpat : pat ≠ [])
    (hneedle : needle <:+: rep) :
    ∀ (l : Chars) (fuel : Nat), l.length ≤ fuel → pat <:+: l →
      needle <:+: jsReplaceFirstGo pat rep fuel l := by
  intro l
  induction l with
  | nil =>
    intro fuel _ hocc
    rw [List.infix_nil] at hocc
    exact absurd hocc hpat
  | cons c cs ih =>
    intro fuel hlen hocc
    match fuel with
    | 0 => simp at hlen
    | n + 1 =>
      simp only [jsReplaceFirstGo]
      by_cases hp : pat.isPrefixOf (c :: cs) = true
      · rw [hp]
        simp only [if_true]
        exact hneedle.trans (List.prefix_append rep _).isInfix
      · rw [Bool.eq_false_iff.mpr hp]
        simp only [Bool.false_eq_true, if_false]
        have hocc' : pat <:+: cs := by
          rcases List.infix_cons_iff.mp hocc with hpre | hin
          · exact absurd (List.isPrefixOf_iff_prefix.mpr hpre) hp
          · exact hin
        have hlen' : cs.length ≤ n := by
          simp only [List.length_cons] at hlen
          omega
        exact List.infix_cons (ih n hlen' hocc')

/-- `applyBreaking` is the identity on any message with no blank-line pair,
whether or not the marker is present. -/
lemma applyBreaking_no_blank_pair (s : String) (hnn : jsIncludes "\n\n" s = false) :
    applyBreaking true s = s := by
  rw [applyBreaking]
  by_cases hmk : jsIncludes "BREAKING CHANGE" s = true
  · rw [hmk]
    rfl
  · rw [Bool.eq_false_iff.mpr hmk]
    simp only [Bool.not_false, Bool.and_true, if_true]
    have hno : ¬ ("\n\n" : String).data <:+: s.data := by
      intro h
      rw [(jsIncludes_iff _ _).mpr h] at hnn
      cases hnn
    rw [jsReplaceFirst, jsReplaceFirstGo_no_occ _ _ _ _ hno]

/-- Claim C8: if the draft already contains the literal `"BREAKING CHANGE"`,
the breaking-change formatting step of `generateCommitMessage` leaves the
message unchanged; and the step is idempotent on every draft — applying it
twice never inserts the marker twice. -/
theorem applyBreaking_idempotent (m : String) :
    (jsIncludes "BREAKING CHANGE" m = true → applyBreaking true m = m) ∧
    applyBreaking true (applyBreaking true m) = applyBreaking true m := by
  have hnoop : ∀ s : String, jsIncludes "BREAKING CHANGE" s = true →
      applyBreaking true s = s := by
    intro s hs
    rw [applyBreaking, hs]
    rfl
  refine ⟨hnoop m, ?_⟩
  by_cases hm : jsIncludes "BREAKING CHANGE" m = true
  · rw [hnoop m hm, hnoop m hm]
  · have happ : applyBreaking true m = jsReplaceFirst "\n\n" "\n\nBREAKING CHANGE: " m := by
      rw [applyBreaking, Bool.eq_false_iff.mpr hm]
      rfl
    by_cases hocc : ("\n\n" : String).data <:+: m.data
    · have hmarker : jsIncludes "BREAKING CHANGE"
          (jsReplaceFirst "\n\n" "\n\nBREAKING CHANGE: " m) = true := by
        rw [jsIncludes, jsReplaceFirst, data_mk, containsSub_iff]
        refine jsReplaceFirstGo_infix_rep _ _ _ (by decide) ?_ m.data (m.data.length + 1)
          (by omega) hocc
        exact (containsSub_iff _ _).mp (by decide)
      rw [happ, hnoop _ hmarker]
    · have hid : jsReplaceFirst "\n\n" "\n\nBREAKING CHANGE: " m = m := by
        rw [jsReplaceFirst, jsReplaceFirstGo_no_occ _ _ _ _ hocc]
      rw [hid] at happ
      rw [happ, happ]

/-- Witness for C8 on a draft already carrying the marker. -/
theorem applyBreaking_idempotent_witness :
    jsIncludes "BREAKING CHANGE" "feat: x\n\nBREAKING CHANGE: y" = true ∧
    applyBreaking true "feat: x\n\nBREAKING CHANGE: y" = "feat: x\n\nBREAKING CHANGE: y" ∧
    applyBreaking true (applyBreaking true "feat: x\n\nBREAKING CHANGE: y")
      = applyBreaking true "feat: x\n\nBREAKING CHANGE: y" :=
  ⟨by decide,
    (applyBreaking_idempotent "feat: x\n\nBREAKING CHANGE: y").1 (by decide),
    (applyBreaking_idempotent "feat: x\n\nBREAKING CHANGE: y").2⟩

/-! ### The enforced-type rewrite and newlines (claim C9) -/

/-- The premise of claim C9, rendered from its words: the message contains a
colon followed — possibly after whitespace — by at least one further
character (necessarily not a line terminator, since line terminators are
whitespace). -/
def colonThenNonNewline : Chars → Bool
  | [] => false
  | c :: cs =>
    (c == ':' && !(cs.dropWhile isJsWhitespace).isEmpty) || colonThenNonNewline cs

/-- Claim C9 counterexample: the draft `"fix(a\nb): x"` satisfies the
premise (its colon is followed by `" x"`), yet the rewritten message
`"feat(a\nb): x"` contains a newline — the scope parenthetical regex
`\([^)]+\)` matches across the newline and the newline survives the
rewrite. -/
theorem enforceCommitType_newline_cex :
    colonThenNonNewline ("fix(a\nb): x").data = true ∧
    '\n' ∈ (enforceCommitType "fix(a\nb): x" "feat" true).data := by
  constructor
  · decide
  · decide

lemma orElse_eq_some_cases {α : Type} {a : Option α} {b : Unit → Option α} {d : α}
    (h : a.orElse b = some d) : a = some d ∨ b () = some d := by
  cases a with
  | some x => exact Or.inl h
  | none => exact Or.inr h

lemma wsBT_some (k : Chars → Option Chars) :
    ∀ (l d : Chars), wsBT k l = some d → ∃ t, k t = some d := by
  intro l
  induction l with
  | nil => intro d h; exact ⟨[], h⟩
  | cons c cs ih =>
    intro d h
    rw [wsBT] at h
    by_cases hw : isJsWhitespace c = true
    · rw [if_pos hw] at h
      rcases orElse_eq_some_cases h with h1 | h1
      · exact ih d h1
      · exact ⟨c :: cs, h1⟩
    · rw [if_neg hw] at h
      exact ⟨c :: cs, h⟩

lemma tryDesc_no_lineterm : ∀ {l d : Chars}, tryDesc l = some d →
    d.all (fun c => !isLineTerm c) = true := by
  intro l d h
  match l with
  | [] => cases h
  | c :: cs =>
    rw [tryDesc] at h
    by_cases hc : isLineTerm c = true
    · rw [if_pos hc] at h
      cases h
    · rw [if_neg hc] at h
      injection h with h
      subst h
      rw [List.all_eq_true]
      intro x hx
      have := List.mem_takeWhile_imp hx
      simpa using this

lemma descAfterColon_no_lineterm {rest d : Chars} (h : descAfterColon rest = some d) :
    d.all (fun c => !isLineTerm c) = true := by
  obtain ⟨t, ht⟩ := wsBT_some _ rest d h
  rcases orElse_eq_some_cases ht with h1 | h1
  · match t, h1 with
    | e :: cs, h1 =>
      have h1' : (if isEmojiChar e = true then wsBT tryDesc cs else none) = some d := h1
      by_cases he : isEmojiChar e = true
      · rw [if_pos he] at h1'
        obtain ⟨t2, ht2⟩ := wsBT_some tryDesc cs d h1'
        exact tryDesc_no_lineterm ht2
      · rw [if_neg he] at h1'
        cases h1'
  · exact tryDesc_no_lineterm h1

lemma descMatch_no_lineterm {m d : Chars} (h : descMatch m = some d) :
    d.all (fun c => !isLineTerm c) = true := by
  simp only [descMatch] at h
  split at h
  · cases h
  · split at h
    · exact descAfterColon_no_lineterm h
    · cases h

lemma emojiSearch_isEmoji : ∀ {l : Chars} {e : Char},
    emojiSearch l = some e → isEmojiChar e = true := by
  intro l
  induction l with
  | nil => intro e h; cases h
  | cons c cs ih =>
    intro e h
    rw [emojiSearch] at h
    by_cases hc : c = ':'
    · rw [if_pos hc] at h
      cases hdrop : cs.dropWhile isJsWhitespace with
      | nil =>
        rw [hdrop] at h
        exact ih h
      | cons x xs =>
        rw [hdrop] at h
        have h' : (if isEmojiChar x = true then some x else emojiSearch cs) = some e := h
        by_cases hx : isEmojiChar x = true
        · rw [if_pos hx] at h'
          injection h' with h'
          subst h'
          exact hx
        · rw [if_neg hx] at h'
          exact ih h'
    · rw [if_neg hc] at h
      exact ih h

lemma emoji_not_lineterm {e : Char} (h : isEmojiChar e = true) : (!isLineTerm e) = true := by
  have h' : 0x1F300 ≤ e.toNat ∧ e.toNat ≤ 0x1F9FF := by
    simpa [isEmojiChar] using h
  have h10 : e ≠ '\n' := by intro hq; subst hq; revert h'; decide
  have h13 : e ≠ '\r' := by intro hq; subst hq; revert h'; decide
  have h2028 : ¬ e.toNat = 0x2028 := by omega
  have h2029 : ¬ e.toNat = 0x2029 := by omega
  simp [isLineTerm, h10, h13, h2028, h2029]

/-- Claim C9 (amended): whenever the description regex of line 177 actually
matches the draft and the extracted scope parenthetical (if any) contains no
line terminator, the rewritten message contains no line terminator at all:
the captured description stops at the first line break, so the body and
footer of a multiline draft are silently dropped. -/
theorem enforceCommitType_single_line (message : String) (type : CommitType) (emoji : Bool)
    (htype : type.data.all (fun c => !isLineTerm c) = true)
    (hdesc : (descMatch message.data).isSome = true)
    (hscope : ((scopeOf message.data).getD []).all (fun c => !isLineTerm c) = true) :
    (enforceCommitType message type emoji).data.all (fun c => !isLineTerm c) = true := by
  obtain ⟨d, hd⟩ := Option.isSome_iff_exists.mp hdesc
  have hdall := descMatch_no_lineterm hd
  simp only [enforceCommitType, data_mk, hd, Option.getD_some, List.all_append,
    Bool.and_eq_true]
  refine ⟨⟨⟨⟨htype, hscope⟩, by decide⟩, ?_⟩, hdall⟩
  split
  · split
    · rw [List.all_append, Bool.and_eq_true]
      refine ⟨?_, by decide⟩
      cases hs : emojiSearch message.data with
      | some e =>
        show List.all [e] (fun c => !isLineTerm c) = true
        simp only [List.all_cons, List.all_nil, Bool.and_true]
        exact emoji_not_lineterm (emojiSearch_isEmoji hs)
      | none => rfl
    · rfl
  · split
    · rename_i hemo hP
      exact absurd hP.1 hemo
    · rfl

/-- Witness for the amended C9 at a concrete single-line draft. -/
theorem enforceCommitType_single_line_witness :
    (enforceCommitType "fix(api): 🐛 hello" "feat" true).data.all
      (fun c => !isLineTerm c) = true :=
  enforceCommitType_single_line "fix(api): 🐛 hello" "feat" true
    (by decide) (by decide) (by decide)

/-! ### Breaking-change insertion on drafts without a blank-line pair
(claim C10) -/

lemma trimEnd_front (p : Char → Bool) (l : Chars) :
    (l.reverse.dropWhile p).reverse <+: l := by
  have h0 : (l.reverse.dropWhile p).reverse <+: l.reverse.reverse :=
    List.reverse_prefix.mpr (List.dropWhile_suffix p)
  rwa [List.reverse_reverse] at h0

lemma jsTrim_within (s : String) : (jsTrim s).data <:+: s.data := by
  rw [jsTrim, data_mk]
  exact (trimEnd_front isJsWhitespace (s.data.dropWhile isJsWhitespace)).isInfix.trans
    (List.dropWhile_suffix isJsWhitespace).isInfix

/-- Claim C10 counterexample: a single-line draft that already contains the
marker, formatted with `breaking = true`, yields a final message that still
contains `"BREAKING CHANGE"` — the claim's conclusion fails when the draft
itself carries the marker. -/
theorem formatMessage_breaking_cex :
    jsIncludes "\n\n" "fix: drop legacy API BREAKING CHANGE" = false ∧
    jsIncludes "BREAKING CHANGE"
      (formatMessage ⟨"", false, false, false, none, true, none, none, none⟩
        "fix: drop legacy API BREAKING CHANGE") = true := by
  constructor
  · decide
  · decide

/-- Claim C10 (amended): for every draft containing neither a blank-line
pair nor the literal `"BREAKING CHANGE"`, a request with `breaking = true`
and no scope and no reference leaves the breaking-change step a no-op and
produces a final message containing no `"BREAKING CHANGE"` marker: the
insertion targets the first `"\n\n"` and silently does nothing on a
single-line draft. -/
theorem formatMessage_no_breaking_marker (options : GenerateMessageOptions) (draft : String)
    (hbreak : options.breaking = true)
    (hscope : options.scope = none)
    (href : options.ref = none)
    (hnn : jsIncludes "\n\n" draft = false)
    (hmk : jsIncludes "BREAKING CHANGE" draft = false) :
    applyBreaking options.breaking draft = draft ∧
    jsIncludes "BREAKING CHANGE" (formatMessage options draft) = false := by
  have not_in_trim : ∀ needle : String, jsIncludes needle draft = false →
      jsIncludes needle (jsTrim draft) = false := by
    intro needle hno
    rw [Bool.eq_false_iff, ne_eq, jsIncludes_iff]
    intro hin
    rw [(jsIncludes_iff _ _).mpr (hin.trans (jsTrim_within draft))] at hno
    cases hno
  have hnnt := not_in_trim "\n\n" hnn
  have hmkt := not_in_trim "BREAKING CHANGE" hmk
  constructor
  · rw [hbreak]
    exact applyBreaking_no_blank_pair draft hnn
  · rw [formatMessage, hscope, href, hbreak]
    rw [show applyScope none (jsTrim draft) = jsTrim draft from rfl]
    rw [applyBreaking_no_blank_pair (jsTrim draft) hnnt]
    rw [show applyRef none (jsTrim draft) = jsTrim draft from rfl]
    exact hmkt

/-- Witness for the amended C10 at a concrete single-line draft. -/
theorem formatMessage_no_breaking_marker_witness :
    applyBreaking (⟨"", false, false, false, none, true, none, none, none⟩ :
        GenerateMessageOptions).breaking "fix: simplify parser" = "fix: simplify parser" ∧
    jsIncludes "BREAKING CHANGE"
      (formatMessage ⟨"", false, false, false, none, true, none, none, none⟩
        "fix: simplify parser") = false :=
  formatMessage_no_breaking_marker ⟨"", false, false, false, none, true, none, none, none⟩
    "fix: simplify parser" rfl rfl rfl (by decide) (by decide)

end AICommit
